import Mathlib

/-!
Shallow embedding of the gembot API-key pool manager.

Timestamps are integers (seconds).  SQL `NULL` timestamps are `Option.none`;
the boolean `quota_exhausted` column keeps its three-valued form as
`Option Bool` because the queries spell out `quota_exhausted = FALSE OR
quota_exhausted IS NULL`.
-/

namespace Gembot

/-- One row of the `api_keys` table (`src/utils/db_utils.py`,
`src/launcher/scripts/select_key.py`). -/
structure Key where
  id : Nat
  key_name : String
  key_value : String
  daily_request_count : Nat
  daily_token_total : Nat
  last_used : Option Int
  quota_exhausted : Option Bool
  disabled_until : Option Int
deriving Repr, DecidableEq

/-- `MIN_REQUEST_INTERVAL_SECONDS = 30` in `src/utils/db_utils.py`. -/
def MIN_REQUEST_INTERVAL_SECONDS : Int := 30

/-- `(quota_exhausted = FALSE OR quota_exhausted IS NULL)` — shared WHERE
clause of `select_key` and `get_available_key`. -/
def quotaOk (k : Key) : Bool :=
  k.quota_exhausted = some false || k.quota_exhausted = none

/-- `(disabled_until IS NULL OR disabled_until < NOW())` — shared WHERE
clause of `select_key` and `get_available_key`. -/
def enabledAt (now : Int) (k : Key) : Bool :=
  match k.disabled_until with
  | none => true
  | some t => decide (t < now)

/-- WHERE clause built in `select_key` (`select_key.py` lines 104-109):
the quota condition is added only when `allow_exhausted` is off. -/
def selWhere (allow_exhausted : Bool) (now : Int) (k : Key) : Bool :=
  (allow_exhausted || quotaOk k) && enabledAt now k

/-- `last_used ASC NULLS FIRST` comparison on nullable timestamps. -/
def luLE : Option Int → Option Int → Bool
  | none, _ => true
  | some _, none => false
  | some a, some b => decide (a ≤ b)

/-- `ORDER BY daily_request_count ASC, daily_token_total ASC, last_used ASC
NULLS FIRST` (`select_key.py` line 112), as a total preorder on rows. -/
def selOrderLE (a b : Key) : Bool :=
  if a.daily_request_count = b.daily_request_count then
    if a.daily_token_total = b.daily_token_total then luLE a.last_used b.last_used
    else decide (a.daily_token_total ≤ b.daily_token_total)
  else decide (a.daily_request_count ≤ b.daily_request_count)

/-- `ORDER BY last_used ASC NULLS FIRST` (`db_utils.py` line 158): the
agent-loop query orders by `last_used` alone. -/
def gaOrderLE (a b : Key) : Bool :=
  luLE a.last_used b.last_used

/-- Stable insertion into a list ordered by `le`; models placing a row at
its position in a SQL `ORDER BY` result. -/
def insertBy (le : Key → Key → Bool) (x : Key) : List Key → List Key
  | [] => [x]
  | y :: ys => if le x y then x :: y :: ys else y :: insertBy le x ys

/-- Insertion sort by `le`; models the SQL `ORDER BY` result list. -/
def sortBy (le : Key → Key → Bool) : List Key → List Key
  | [] => []
  | x :: xs => insertBy le x (sortBy le xs)

/-- `WHERE`-predicate of the CLI selection with the rows named in `locked`
still claimed (`FOR UPDATE` locks held) by other transactions. -/
def selAvailUnlocked (allow : Bool) (now : Int) (locked : List String) (k : Key) : Bool :=
  selWhere allow now k && !(decide (k.key_name ∈ locked))

/-- The ordered result set of `select_key`'s SELECT (`select_key.py` line
133) before `LIMIT 1`, skipping rows locked by concurrent claims. -/
def selQueryList (allow : Bool) (now : Int) (locked : List String) (pool : List Key) :
    List Key :=
  sortBy selOrderLE (pool.filter (selAvailUnlocked allow now locked))

/-- `SELECT ... FOR UPDATE SKIP LOCKED LIMIT 1`: the first row in order that
is available and not claimed by a concurrent transaction. -/
def selectLocked (allow : Bool) (now : Int) (locked : List String) (pool : List Key) :
    Option Key :=
  (selQueryList allow now locked pool).head?

/-- `select_key` run with no concurrent transaction in flight. -/
def selectKeyQuery (allow : Bool) (now : Int) (pool : List Key) : Option Key :=
  selectLocked allow now [] pool

/-- The `--reserve` UPDATE applied to the chosen row (`select_key.py` line
151): `disabled_until = NOW() + INTERVAL 'reserve seconds'`. -/
def reserveKey (now reserve : Int) (k : Key) : Key :=
  { k with disabled_until := some (now + reserve) }

/-- One CLI selection with `--reserve SECONDS` (`select_key.py` lines
145-156): on success the chosen row is soft-reserved in the same claim. -/
def selectKeyReserve (now reserve : Int) (pool : List Key) : Option Key × List Key :=
  match selectKeyQuery false now pool with
  | none => (none, pool)
  | some k =>
    (some k, pool.map (fun x =>
      if x.key_name = k.key_name then reserveKey now reserve x else x))

/-- `n` concurrent CLI claims in one round: every earlier caller's
transaction still holds its row lock, so each later caller's
`FOR UPDATE SKIP LOCKED` query skips the rows already claimed. -/
def claimRound (allow : Bool) (now : Int) (pool : List Key) :
    Nat → List String → List (Option Key)
  | 0, _ => []
  | n + 1, locked =>
    match selectLocked allow now locked pool with
    | none => none :: claimRound allow now pool n locked
    | some k => some k :: claimRound allow now pool n (k.key_name :: locked)

/-- A Redis entry of the `available_api_keys` list: the
`{'id': ..., 'value': ...}` blob pushed in `db_utils.py` lines 165-171. -/
structure CacheEntry where
  id : Nat
  value : String
deriving Repr, DecidableEq

/-- Shared state seen by the agent loop: the `api_keys` table and the Redis
`available_api_keys` list. -/
structure AgentState where
  db : List Key
  cache : List CacheEntry
deriving Repr, DecidableEq

/-- WHERE clause of `get_available_key`'s SELECT (`db_utils.py` lines
152-158): the availability predicate plus `daily_request_count < 60`. -/
def gaAvailable (now : Int) (k : Key) : Bool :=
  quotaOk k && enabledAt now k && decide (k.daily_request_count < 60)

/-- Result list of `get_available_key`'s SELECT: filtered rows ordered by
`last_used ASC NULLS FIRST` alone. -/
def gaQueryList (now : Int) (db : List Key) : List Key :=
  sortBy gaOrderLE (db.filter (gaAvailable now))

/-- The cache entry written for a row on refill. -/
def entryOf (k : Key) : CacheEntry :=
  ⟨k.id, k.key_value⟩

/-- `get_available_key` (`db_utils.py` lines 142-178) with Redis reachable:
LPOP the cache; on a miss query the store; on an empty result return None;
otherwise DELETE the list, RPUSH every result row, and LPOP the first. -/
def getAvailableKey (now : Int) (s : AgentState) : Option CacheEntry × AgentState :=
  match s.cache with
  | e :: rest => (some e, { s with cache := rest })
  | [] =>
    match gaQueryList now s.db with
    | [] => (none, s)
    | k :: rest => (some (entryOf k), { s with cache := rest.map entryOf })

/-- The agent's rate-limit handler (`gemini_agent.py` lines 342-346): set
`disabled_until = NOW() + INTERVAL` on the named row and DELETE the Redis
list in the same operation.  The agent passes a 5-minute interval; the CLI
`--reserve` path writes the same column with an arbitrary duration. -/
def disableKey (now d : Int) (name : String) (s : AgentState) : AgentState :=
  { db := s.db.map (fun k =>
      if k.key_name = name then { k with disabled_until := some (now + d) } else k),
    cache := [] }

/-- `INTERVAL '5 minutes'` of the agent's rate-limit handler, in seconds. -/
def RATE_LIMIT_COOLDOWN_SECONDS : Int := 300

/-- One row of the `usage_log` table (`db_utils.py` lines 229-232). -/
structure LogEntry where
  key_name : String
  task_id : String
  token_count : Nat
  request_type : String
deriving Repr, DecidableEq

/-- State touched by the usage tracker: the `api_keys` table, the
`usage_log` table and the Redis list. -/
structure TrackState where
  db : List Key
  usage_log : List LogEntry
  cache : List CacheEntry
deriving Repr, DecidableEq

/-- `update_key_and_log_usage` (`db_utils.py` lines 219-233): one UPDATE of
the named row's counters and `last_used`, one INSERT into `usage_log`. -/
def update_key_and_log_usage (now : Int) (key_name task_id : String)
    (token_count : Nat) (request_type : String) (s : TrackState) : TrackState :=
  { s with
    db := s.db.map (fun k =>
      if k.key_name = key_name then
        { k with
          last_used := some now,
          daily_request_count := k.daily_request_count + 1,
          daily_token_total := k.daily_token_total + token_count }
      else k),
    usage_log := s.usage_log ++ [⟨key_name, task_id, token_count, request_type⟩] }

/-- Default `threshold` of `check_and_notify_quota_usage`. -/
def NEAR_QUOTA_THRESHOLD : Nat := 55

/-- The hardcoded daily limit in `check_and_notify_quota_usage` and in
`get_available_key`'s `daily_request_count < 60` filter. -/
def DAILY_QUOTA_LIMIT : Nat := 60

/-- A Slack message sent by `check_and_notify_quota_usage`. -/
inductive QuotaNotice
  | nearQuota (key_name : String) (count : Nat)
  | exhausted (key_name : String) (count : Nat)
deriving Repr, DecidableEq

/-- `check_and_notify_quota_usage` (`db_utils.py` lines 235-251): read the
key's `daily_request_count`; on `== threshold` send a warning-level notice;
on `>= 60` send an error-level notice and DELETE the Redis list.  No
`api_keys` column is written.  (The source indexes `fetchone()[0]` and so
presumes the key row exists; an absent row is modelled as a no-op.) -/
def check_and_notify_quota_usage (key_name : String) (threshold : Nat)
    (s : TrackState) : List QuotaNotice × TrackState :=
  match s.db.find? (fun k => k.key_name == key_name) with
  | none => ([], s)
  | some k =>
    if k.daily_request_count = threshold then
      ([.nearQuota key_name k.daily_request_count], s)
    else if k.daily_request_count ≥ DAILY_QUOTA_LIMIT then
      ([.exhausted key_name k.daily_request_count], { s with cache := [] })
    else ([], s)

/-- One agent-loop accounting step: `update_key_and_log_usage` then
`check_and_notify_quota_usage` (`gemini_agent.py` lines 370-371). -/
def recordAndCheck (now : Int) (key_name task_id : String) (token_count : Nat)
    (request_type : String) (s : TrackState) : TrackState × List QuotaNotice :=
  let s1 := update_key_and_log_usage now key_name task_id token_count request_type s
  let p := check_and_notify_quota_usage key_name NEAR_QUOTA_THRESHOLD s1
  (p.2, p.1)

/-- `n` consecutive accounting steps against the same key. -/
def recordRun (now : Int) (key_name task_id : String) (token_count : Nat)
    (request_type : String) : Nat → TrackState → TrackState × List QuotaNotice
  | 0, s => (s, [])
  | n + 1, s =>
    let p := recordAndCheck now key_name task_id token_count request_type s
    let q := recordRun now key_name task_id token_count request_type n p.1
    (q.1, p.2 ++ q.2)

/-- Sleep duration computed by `throttle_if_needed` (`db_utils.py` lines
204-217), zero when the code does not sleep. -/
def throttleSleep (now : Int) (lastUsed : Option Int) : Int :=
  match lastUsed with
  | none => 0
  | some t =>
    let elapsed := now - t
    if elapsed < MIN_REQUEST_INTERVAL_SECONDS then
      MIN_REQUEST_INTERVAL_SECONDS - elapsed
    else 0

/-- `throttle_if_needed` over the table: look up the named key's `last_used`
and sleep accordingly.  (The source indexes `fetchone()[0]`; an absent row is
modelled as a zero sleep.) -/
def throttle_if_needed (now : Int) (db : List Key) (key_name : String) : Int :=
  match db.find? (fun k => k.key_name == key_name) with
  | none => 0
  | some k => throttleSleep now k.last_used

/-- The environment of one `select_key.py` invocation. -/
structure CliEnv where
  connect_ok : Bool
  table_exists : Bool
  secret_col_ok : Bool
  db_error : Bool
  now : Int
  allow_exhausted : Bool
  keys : List Key
deriving Repr, DecidableEq

/-- Exit code of `select_key.py main` (lines 161-208): a connect failure
exits 4; a missing secret column exits 3 (line 118); `UndefinedTable` exits
3 (line 188); any other storage exception exits 4 (line 191); a falsy
`api_key` — no row, or a row whose secret is the empty string — exits 2
(line 198); otherwise the key is printed and the process exits 0. -/
def mainExitCode (env : CliEnv) : Nat :=
  if !env.connect_ok then 4
  else if !env.secret_col_ok then 3
  else if !env.table_exists then 3
  else if env.db_error then 4
  else
    match selectKeyQuery env.allow_exhausted env.now env.keys with
    | none => 2
    | some k => if k.key_value = "" then 2 else 0

instance : Inhabited Key :=
  ⟨⟨0, "", "", 0, 0, none, none, none⟩⟩

/-- A concrete row last used at time 100. -/
def kThrottle : Key := ⟨1, "k1", "v1", 0, 0, some 100, some false, none⟩

/-- A concrete row for the C7 witness. -/
def kRecord : Key := ⟨2, "k2", "v2", 5, 40, some 10, some false, none⟩

/-- A row past the 60-request filter but otherwise fully available. -/
def kQuotaCount : Key := ⟨3, "k3", "v3", 60, 0, none, some false, none⟩

/-- A fully available row under the 60-request filter. -/
def kUnderCount : Key := ⟨4, "k4", "v4", 3, 0, some 10, some false, none⟩

/-- A row satisfying the spec availability predicate (quota flag false,
`disabled_until` null) whose `daily_request_count` is 60. -/
def kAvailBlocked : Key := ⟨5, "k5", "v5", 60, 0, none, some false, none⟩

/-- A fresh, enabled row for the C5 witness. -/
def kCool : Key := ⟨6, "k6", "v6", 0, 0, none, some false, none⟩

/-- An available row whose secret is the empty string. -/
def kEmptySecret : Key := ⟨7, "k7", "", 0, 0, none, some false, none⟩

/-- CLI environment where everything is healthy and the only key's secret is
the empty string. -/
def envEmptySecret : CliEnv := ⟨true, true, true, false, 100, false, [kEmptySecret]⟩

/-- Witness for C8 on a healthy one-good-key environment: exit 0. -/
def envHealthy : CliEnv := ⟨true, true, true, false, 100, false, [kUnderCount]⟩

/-- An old much-used row: `count = 10`, `last_used = 0`. -/
def kOldHeavy : Key := ⟨8, "A0", "va0", 10, 0, some 0, some false, none⟩

/-- A newer little-used row: `count = 2`, `last_used = 5`. -/
def kNewLight : Key := ⟨9, "B0", "vb0", 2, 0, some 5, some false, none⟩

/-- Key A of the spec's priority-order test: `count = 10`. -/
def kA : Key := ⟨10, "A", "va", 10, 0, some 50, some false, none⟩

/-- Key B of the spec's priority-order test: `count = 2`. -/
def kB : Key := ⟨11, "B", "vb", 2, 0, some 40, some false, none⟩

/-- Key C of the spec's priority-order test: `count = 2`, `last_used` older
than B's. -/
def kC : Key := ⟨12, "C", "vc", 2, 0, some 30, some false, none⟩

/-- The `SELECT daily_request_count FROM api_keys WHERE key_name = ...` read
performed by `check_and_notify_quota_usage` (first matching row). -/
def countOf (db : List Key) (name : String) : Option Nat :=
  (db.find? (fun k => k.key_name == name)).map Key.daily_request_count

/-- Does `check_and_notify_quota_usage` class this notice as the near-quota
warning? -/
def isNearNotice : QuotaNotice → Bool
  | .nearQuota _ _ => true
  | .exhausted _ _ => false

/-- The row update applied by `update_key_and_log_usage`. -/
def recordUpd (now : Int) (tok : Nat) (k : Key) : Key :=
  { k with
    last_used := some now,
    daily_request_count := k.daily_request_count + 1,
    daily_token_total := k.daily_token_total + tok }

/-- A row at 59 requests with quota flag false, alongside a populated
cache. -/
def kFiftyNine : Key := ⟨13, "k13", "v13", 59, 0, some 10, some false, none⟩

/-- Tracker state for the C2 counterexample. -/
def sFiftyNine : TrackState := ⟨[kFiftyNine], [], [⟨13, "v13"⟩]⟩

/-- A row at 53 requests for the C6 witness. -/
def kFiftyThree : Key := ⟨14, "k14", "v14", 53, 0, none, some false, none⟩

/-- Tracker state for the C6 witness. -/
def sFiftyThree : TrackState := ⟨[kFiftyThree], [], []⟩

/-- Repeated agent-loop selections at the given instants, with no
intervening mutation of the table. -/
def acquireTrace : List Int → AgentState → List (Option CacheEntry) × AgentState
  | [], s => ([], s)
  | t :: ts, s =>
    let p := getAvailableKey t s
    let q := acquireTrace ts p.2
    (p.1 :: q.1, q.2)

/-- A fresh row to be disabled in the C3 witness. -/
def kDisable : Key := ⟨15, "k15", "v15", 0, 0, some 10, some false, none⟩

/-- Agent state for the C3 witness: the row is also sitting in the cache. -/
def sDisable : AgentState := ⟨[kDisable], [⟨15, "v15"⟩]⟩

/-- Available row 1 of the C1 witness pool. -/
def kW1 : Key := ⟨16, "w1", "s1", 1, 0, some 10, some false, none⟩

/-- Available row 2 of the C1 witness pool. -/
def kW2 : Key := ⟨17, "w2", "s2", 2, 0, some 20, some false, none⟩

/-- A disabled row of the C1 witness pool. -/
def kW3 : Key := ⟨18, "w3", "s3", 0, 0, some 30, some false, some 200⟩

theorem mem_insertBy (le : Key → Key → Bool) (x : Key) (l : List Key) (y : Key) :
    y ∈ insertBy le x l ↔ y = x ∨ y ∈ l := by
  induction l with
  | nil => simp [insertBy]
  | cons z zs ih =>
    by_cases h : le x z = true
    · simp only [insertBy, if_pos h, List.mem_cons]
    · simp only [insertBy, if_neg h, List.mem_cons, ih]
      tauto

theorem mem_sortBy (le : Key → Key → Bool) (l : List Key) (y : Key) :
    y ∈ sortBy le l ↔ y ∈ l := by
  induction l with
  | nil => simp [sortBy]
  | cons z zs ih => simp [sortBy, mem_insertBy, ih, List.mem_cons]

theorem length_insertBy (le : Key → Key → Bool) (x : Key) (l : List Key) :
    (insertBy le x l).length = l.length + 1 := by
  induction l with
  | nil => simp [insertBy]
  | cons z zs ih =>
    by_cases h : le x z = true
    · simp [insertBy, h]
    · simp [insertBy, h, ih]

theorem length_sortBy (le : Key → Key → Bool) (l : List Key) :
    (sortBy le l).length = l.length := by
  induction l with
  | nil => rfl
  | cons z zs ih => simp [sortBy, length_insertBy, ih]

theorem luLE_total (a b : Option Int) : luLE a b = true ∨ luLE b a = true := by
  cases a <;> cases b
  all_goals simp [luLE]
  omega

theorem luLE_trans {a b c : Option Int} (h1 : luLE a b = true) (h2 : luLE b c = true) :
    luLE a c = true := by
  cases a <;> cases b <;> cases c
  all_goals simp_all [luLE]
  omega

theorem selOrderLE_iff (a b : Key) : selOrderLE a b = true ↔
    a.daily_request_count < b.daily_request_count ∨
    (a.daily_request_count = b.daily_request_count ∧
      (a.daily_token_total < b.daily_token_total ∨
        (a.daily_token_total = b.daily_token_total ∧
          luLE a.last_used b.last_used = true))) := by
  unfold selOrderLE
  by_cases e1 : a.daily_request_count = b.daily_request_count
  · by_cases e2 : a.daily_token_total = b.daily_token_total
    · simp [e1, e2]
    · simp only [if_pos e1, if_neg e2, decide_eq_true_eq]
      constructor
      · intro h; exact Or.inr ⟨e1, Or.inl (by omega)⟩
      · rintro (h | ⟨_, h | ⟨h, _⟩⟩) <;> omega
  · simp only [if_neg e1, decide_eq_true_eq]
    constructor
    · intro h; exact Or.inl (by omega)
    · rintro (h | ⟨h, _⟩) <;> omega

theorem selOrderLE_total (a b : Key) : selOrderLE a b = true ∨ selOrderLE b a = true := by
  rw [selOrderLE_iff, selOrderLE_iff]
  rcases Nat.lt_trichotomy a.daily_request_count b.daily_request_count with h | h | h
  · exact Or.inl (Or.inl h)
  · rcases Nat.lt_trichotomy a.daily_token_total b.daily_token_total with h2 | h2 | h2
    · exact Or.inl (Or.inr ⟨h, Or.inl h2⟩)
    · rcases luLE_total a.last_used b.last_used with h3 | h3
      · exact Or.inl (Or.inr ⟨h, Or.inr ⟨h2, h3⟩⟩)
      · exact Or.inr (Or.inr ⟨h.symm, Or.inr ⟨h2.symm, h3⟩⟩)
    · exact Or.inr (Or.inr ⟨h.symm, Or.inl h2⟩)
  · exact Or.inr (Or.inl h)

theorem selOrderLE_trans {a b c : Key} (h1 : selOrderLE a b = true)
    (h2 : selOrderLE b c = true) : selOrderLE a c = true := by
  rw [selOrderLE_iff] at h1 h2 ⊢
  rcases h1 with h1 | ⟨e1, h1⟩
  · rcases h2 with h2 | ⟨e2, _⟩
    · exact Or.inl (h1.trans h2)
    · exact Or.inl (e2 ▸ h1)
  · rcases h2 with h2 | ⟨e2, h2⟩
    · exact Or.inl (e1 ▸ h2)
    · refine Or.inr ⟨e1.trans e2, ?_⟩
      rcases h1 with h1 | ⟨t1, hl1⟩
      · rcases h2 with h2 | ⟨t2, _⟩
        · exact Or.inl (h1.trans h2)
        · exact Or.inl (t2 ▸ h1)
      · rcases h2 with h2 | ⟨t2, hl2⟩
        · exact Or.inl (t1 ▸ h2)
        · exact Or.inr ⟨t1.trans t2, luLE_trans hl1 hl2⟩

/-- Every element of the sorted list is `le`-below all later elements,
provided `le` is total and transitive (true of both ORDER BY clauses). -/
theorem sortBy_pairwise (le : Key → Key → Bool)
    (htot : ∀ a b, le a b = true ∨ le b a = true)
    (htr : ∀ {a b c}, le a b = true → le b c = true → le a c = true)
    (l : List Key) :
    (sortBy le l).Pairwise (fun a b => le a b = true) := by
  induction l with
  | nil => exact List.Pairwise.nil
  | cons x xs ih =>
    have hins : ∀ (m : List Key), m.Pairwise (fun a b => le a b = true) →
        (insertBy le x m).Pairwise (fun a b => le a b = true) := by
      intro m
      induction m with
      | nil => intro _; simp [insertBy]
      | cons y ys ihm =>
        intro hp
        rcases List.pairwise_cons.mp hp with ⟨hy, hys⟩
        by_cases hxy : le x y = true
        · simp only [insertBy, if_pos hxy]
          refine List.pairwise_cons.mpr ⟨?_, hp⟩
          intro z hz
          rcases List.mem_cons.mp hz with rfl | hz'
          · exact hxy
          · exact htr hxy (hy z hz')
        · simp only [insertBy, if_neg hxy]
          refine List.pairwise_cons.mpr ⟨?_, ihm hys⟩
          intro z hz
          rcases (mem_insertBy le x ys z).mp hz with he | hz'
          · rw [he]
            rcases htot x y with h | h
            · exact absurd h hxy
            · exact h
          · exact hy z hz'
    exact hins (sortBy le xs) ih

theorem getD_map_of_lt {α : Type} (f : α → α) (l : List α) (i : Nat) (d : α)
    (h : i < l.length) : (l.map f).getD i d = f (l.getD i d) := by
  induction l generalizing i with
  | nil => simp at h
  | cons x xs ih =>
    cases i with
    | zero => rfl
    | succ j =>
      simp only [List.map_cons, List.getD_cons_succ]
      exact ih j (by simpa using h)

theorem sortBy_eq_nil_iff (le : Key → Key → Bool) (l : List Key) :
    sortBy le l = [] ↔ l = [] := by
  constructor
  · intro h
    have := length_sortBy le l
    rw [h] at this
    exact List.length_eq_zero.mp this.symm
  · intro h; rw [h]; rfl

/-- The head of a pairwise-`le`-sorted list is `le`-below every element,
given reflexivity of `le` at the head. -/
theorem head_min_of_pairwise (le : Key → Key → Bool) (l : List Key) (k : Key)
    (hh : l.head? = some k) (hp : l.Pairwise (fun a b => le a b = true))
    (hrefl : le k k = true) :
    ∀ x ∈ l, le k x = true := by
  cases l with
  | nil => simp at hh
  | cons y ys =>
    have hk : y = k := by simpa using hh
    subst hk
    intro x hx
    rcases List.mem_cons.mp hx with rfl | hx'
    · exact hrefl
    · exact (List.pairwise_cons.mp hp).1 x hx'

theorem luLE_refl (a : Option Int) : luLE a a = true := by
  cases a <;> simp [luLE]

theorem selOrderLE_refl (a : Key) : selOrderLE a a = true := by
  simp [selOrderLE, luLE_refl]

theorem gaOrderLE_refl (a : Key) : gaOrderLE a a = true := by
  simp [gaOrderLE, luLE_refl]

theorem gaOrderLE_total (a b : Key) : gaOrderLE a b = true ∨ gaOrderLE b a = true :=
  luLE_total a.last_used b.last_used

theorem gaOrderLE_trans {a b c : Key} (h1 : gaOrderLE a b = true)
    (h2 : gaOrderLE b c = true) : gaOrderLE a c = true :=
  luLE_trans h1 h2

theorem selectLocked_eq_none_iff (allow : Bool) (now : Int) (locked : List String)
    (pool : List Key) :
    selectLocked allow now locked pool = none ↔
      pool.filter (selAvailUnlocked allow now locked) = [] := by
  unfold selectLocked selQueryList
  rw [List.head?_eq_none_iff, sortBy_eq_nil_iff]

theorem selectLocked_mem {allow : Bool} {now : Int} {locked : List String}
    {pool : List Key} {k : Key} (h : selectLocked allow now locked pool = some k) :
    k ∈ pool ∧ selAvailUnlocked allow now locked k = true := by
  unfold selectLocked selQueryList at h
  have hk : k ∈ sortBy selOrderLE (pool.filter (selAvailUnlocked allow now locked)) :=
    List.mem_of_mem_head? h
  rw [mem_sortBy] at hk
  exact ⟨List.mem_of_mem_filter hk, List.of_mem_filter hk⟩

theorem selectLocked_min {allow : Bool} {now : Int} {locked : List String}
    {pool : List Key} {k : Key} (h : selectLocked allow now locked pool = some k) :
    ∀ x ∈ pool, selAvailUnlocked allow now locked x = true → selOrderLE k x = true := by
  intro x hx hax
  have hpw := sortBy_pairwise selOrderLE selOrderLE_total
    (fun h1 h2 => selOrderLE_trans h1 h2)
    (pool.filter (selAvailUnlocked allow now locked))
  have hmin := head_min_of_pairwise selOrderLE _ k h hpw (selOrderLE_refl k)
  exact hmin x ((mem_sortBy _ _ _).mpr (List.mem_filter.mpr ⟨hx, hax⟩))

theorem mem_gaQueryList (now : Int) (db : List Key) (x : Key) :
    x ∈ gaQueryList now db ↔ x ∈ db ∧ gaAvailable now x = true := by
  unfold gaQueryList
  rw [mem_sortBy, List.mem_filter]

/-- C9: `throttle_if_needed` computes the time elapsed since the key's
`last_used`; when it is below the fixed 30-second minimum inter-request
interval the caller sleeps for exactly the remaining difference, and when
`last_used` is null or the elapsed time is at least the interval the caller
proceeds without sleeping. -/
theorem throttle_wait_if_needed (now : Int) (db : List Key) (name : String) (k : Key)
    (hk : db.find? (fun x => x.key_name == name) = some k) :
    MIN_REQUEST_INTERVAL_SECONDS = 30 ∧
    (k.last_used = none → throttle_if_needed now db name = 0) ∧
    (∀ t, k.last_used = some t → now - t < MIN_REQUEST_INTERVAL_SECONDS →
      throttle_if_needed now db name = MIN_REQUEST_INTERVAL_SECONDS - (now - t)) ∧
    (∀ t, k.last_used = some t → MIN_REQUEST_INTERVAL_SECONDS ≤ now - t →
      throttle_if_needed now db name = 0) := by
  unfold throttle_if_needed
  rw [hk]
  refine ⟨rfl, ?_, ?_, ?_⟩
  · intro h
    simp [throttleSleep, h]
  · intro t ht hlt
    simp [throttleSleep, ht, hlt]
  · intro t ht hge
    simp only [throttleSleep, ht]
    rw [if_neg (by omega)]

/-- Witness for C9: at `now = 110` the caller sleeps `30 - 10` seconds. -/
theorem throttle_wait_if_needed_witness :
    throttle_if_needed 110 [kThrottle] "k1" =
      MIN_REQUEST_INTERVAL_SECONDS - (110 - 100) :=
  (throttle_wait_if_needed 110 [kThrottle] "k1" kThrottle
    (by decide)).2.2.1 100 rfl (by decide)

/-- C7: `update_key_and_log_usage` increments the named key's
`daily_request_count` by exactly 1 and its `daily_token_total` by exactly
the token delta, sets its `last_used` to the current time, changes no other
field of that key, leaves every other row and the cache unchanged, and
appends exactly one usage-log entry recording the key, task, token delta
and request type. -/
theorem record_updates_key_and_log (now : Int) (name task : String) (tok : Nat)
    (rtype : String) (s : TrackState) (i : Nat) (hi : i < s.db.length) :
    (update_key_and_log_usage now name task tok rtype s).db.length = s.db.length ∧
    ((s.db.getD i default).key_name = name →
      ∃ k', (update_key_and_log_usage now name task tok rtype s).db.getD i default = k' ∧
        k'.daily_request_count = (s.db.getD i default).daily_request_count + 1 ∧
        k'.daily_token_total = (s.db.getD i default).daily_token_total + tok ∧
        k'.last_used = some now ∧
        k'.id = (s.db.getD i default).id ∧
        k'.key_name = (s.db.getD i default).key_name ∧
        k'.key_value = (s.db.getD i default).key_value ∧
        k'.quota_exhausted = (s.db.getD i default).quota_exhausted ∧
        k'.disabled_until = (s.db.getD i default).disabled_until) ∧
    ((s.db.getD i default).key_name ≠ name →
      (update_key_and_log_usage now name task tok rtype s).db.getD i default =
        s.db.getD i default) ∧
    (update_key_and_log_usage now name task tok rtype s).usage_log =
      s.usage_log ++ [⟨name, task, tok, rtype⟩] ∧
    (update_key_and_log_usage now name task tok rtype s).cache = s.cache := by
  unfold update_key_and_log_usage
  refine ⟨by simp, ?_, ?_, rfl, rfl⟩
  · intro hname
    rw [getD_map_of_lt _ _ _ _ hi, if_pos hname]
    exact ⟨_, rfl, rfl, rfl, rfl, rfl, rfl, rfl, rfl, rfl⟩
  · intro hname
    rw [getD_map_of_lt _ _ _ _ hi, if_neg hname]

/-- Witness for C7 on a one-row table: the log gains exactly the entry
`{k2, t1, 7, chat}`. -/
theorem record_updates_key_and_log_witness :
    (update_key_and_log_usage 50 "k2" "t1" 7 "chat"
        ⟨[kRecord], [], []⟩).usage_log = [] ++ [⟨"k2", "t1", 7, "chat"⟩] :=
  (record_updates_key_and_log 50 "k2" "t1" 7 "chat"
    ⟨[kRecord], [], []⟩ 0 (by decide)).2.2.2.1

/-- C10: the agent-loop store fall-through path never returns a row with
`daily_request_count ≥ 60` and never places one into the cache on refill,
whatever the row's `quota_exhausted` and `disabled_until` say: everything
it returns or caches comes from the query result, whose rows all satisfy
`daily_request_count < 60`. -/
theorem agent_store_excludes_quota_count (now : Int) (s : AgentState)
    (hc : s.cache = []) :
    (∀ k, k ∈ s.db → 60 ≤ k.daily_request_count → k ∉ gaQueryList now s.db) ∧
    (∀ e, (getAvailableKey now s).1 = some e →
      ∃ k, k ∈ s.db ∧ gaAvailable now k = true ∧ k.daily_request_count < 60 ∧
        e = entryOf k) ∧
    (∀ e, e ∈ (getAvailableKey now s).2.cache →
      ∃ k, k ∈ s.db ∧ gaAvailable now k = true ∧ k.daily_request_count < 60 ∧
        e = entryOf k) := by
  have hfromQ : ∀ k, k ∈ gaQueryList now s.db →
      k ∈ s.db ∧ gaAvailable now k = true ∧ k.daily_request_count < 60 := by
    intro k hk
    rcases (mem_gaQueryList now s.db k).mp hk with ⟨hmem, hav⟩
    refine ⟨hmem, hav, ?_⟩
    have := hav
    simp only [gaAvailable, Bool.and_eq_true, decide_eq_true_eq] at this
    exact this.2
  refine ⟨?_, ?_, ?_⟩
  · intro k hk h60 hmem
    have := (hfromQ k hmem).2.2
    omega
  · intro e he
    unfold getAvailableKey at he
    rw [hc] at he
    cases hq : gaQueryList now s.db with
    | nil => rw [hq] at he; simp at he
    | cons k rest =>
      rw [hq] at he
      simp only at he
      rcases (hfromQ k (by rw [hq]; exact List.mem_cons_self k rest)) with ⟨h1, h2, h3⟩
      exact ⟨k, h1, h2, h3, by simpa using he.symm⟩
  · intro e he
    unfold getAvailableKey at he
    rw [hc] at he
    cases hq : gaQueryList now s.db with
    | nil => rw [hq] at he; simp [hc] at he
    | cons k rest =>
      rw [hq] at he
      simp only [List.mem_map] at he
      rcases he with ⟨r, hr, rfl⟩
      rcases hfromQ r (by rw [hq]; exact List.mem_cons_of_mem k hr) with ⟨h1, h2, h3⟩
      exact ⟨r, h1, h2, h3, rfl⟩

/-- Witness for C10: with an empty cache and a table holding a 60-count row
and a 3-count row, the 60-count row is not in the query result. -/
theorem agent_store_excludes_quota_count_witness :
    kQuotaCount ∉ gaQueryList 100 [kQuotaCount, kUnderCount] :=
  (agent_store_excludes_quota_count 100 ⟨[kQuotaCount, kUnderCount], []⟩ rfl).1
    kQuotaCount (List.mem_cons_self kQuotaCount [kUnderCount]) (by decide)

/-- C5 counterexample: `kAvailBlocked` is available by the predicate — its
quota flag is false and it is not disabled at time 100 — yet the agent-loop
Acquire over a pool holding exactly that key returns Empty, so the key is
not selectable: the "selectable iff available" equivalence fails on the
`get_available_key` path. -/
theorem availability_iff_counterexample :
    quotaOk kAvailBlocked = true ∧ enabledAt 100 kAvailBlocked = true ∧
    kAvailBlocked.disabled_until = none ∧
    getAvailableKey 100 ⟨[kAvailBlocked], []⟩ = (none, ⟨[kAvailBlocked], []⟩) := by
  decide

/-- C5 as amended: (1) a key is selectable by the CLI selector iff it passes
the WHERE clause; (2) that clause says exactly: quota flag false or null
(unless allow-exhausted) and `disabled_until` null or strictly in the past;
(3) the agent-loop store query instead selects a key iff it passes the same
predicate AND `daily_request_count < 60`; (4) a key disabled for `d` seconds
at `t0` fails the clause at every instant up to and including `t0 + d` and
passes it again at any later instant with no other mutation. -/
theorem availability_predicate :
    (∀ (allow : Bool) (now : Int) (k : Key),
      (∃ pool, selectKeyQuery allow now pool = some k) ↔ selWhere allow now k = true) ∧
    (∀ (allow : Bool) (now : Int) (k : Key),
      selWhere allow now k = true ↔
        ((allow = true ∨ k.quota_exhausted = some false ∨ k.quota_exhausted = none) ∧
          (k.disabled_until = none ∨ ∃ t, k.disabled_until = some t ∧ t < now))) ∧
    (∀ (now : Int) (db : List Key) (k : Key),
      k ∈ gaQueryList now db ↔
        (k ∈ db ∧ selWhere false now k = true ∧ k.daily_request_count < 60)) ∧
    (∀ (k : Key) (t0 d : Int) (allow : Bool) (t : Int),
      (t ≤ t0 + d → selWhere allow t (reserveKey t0 d k) = false) ∧
      (t0 + d < t → selWhere allow t (reserveKey t0 d k) = (allow || quotaOk k))) := by
  refine ⟨?_, ?_, ?_, ?_⟩
  · intro allow now k
    constructor
    · rintro ⟨pool, h⟩
      have := (selectLocked_mem h).2
      simpa [selAvailUnlocked] using this
    · intro h
      refine ⟨[k], ?_⟩
      simp [selectKeyQuery, selectLocked, selQueryList, selAvailUnlocked,
        List.filter, h, sortBy, insertBy]
  · intro allow now k
    cases hd : k.disabled_until with
    | none =>
      simp [selWhere, quotaOk, enabledAt, hd]
      try tauto
    | some t =>
      simp [selWhere, quotaOk, enabledAt, hd]
      try tauto
  · intro now db k
    rw [mem_gaQueryList]
    simp only [gaAvailable, selWhere, Bool.false_or, Bool.and_eq_true,
      decide_eq_true_eq]
    try tauto
  · intro k t0 d allow t
    constructor
    · intro h
      have hdec : (decide (t0 + d < t)) = false := by
        simp only [decide_eq_false_iff_not]
        omega
      simp only [selWhere, reserveKey, enabledAt, hdec, Bool.and_false]
    · intro h
      have hdec : (decide (t0 + d < t)) = true := by
        simp only [decide_eq_true_eq]
        exact h
      simp only [selWhere, reserveKey, enabledAt, quotaOk, hdec, Bool.and_true]

/-- Witness for C5 at a 10-second reservation from `t0 = 100`: the key fails
the WHERE clause at `t = 105` and passes it again (quota side only) at
`t = 111`. -/
theorem availability_predicate_witness :
    selWhere false 105 (reserveKey 100 10 kCool) = false ∧
    selWhere false 111 (reserveKey 100 10 kCool) = (false || quotaOk kCool) :=
  ⟨(availability_predicate.2.2.2 kCool 100 10 false 105).1 (by decide),
   (availability_predicate.2.2.2 kCool 100 10 false 111).2 (by decide)⟩

/-- C8 counterexample: a key is selected — the query returns a row that
satisfies the availability predicate — yet `main` exits 2 rather than 0,
because the selected secret is the empty string and the `if not api_key`
test on line 195 treats any falsy secret as "no key". -/
theorem cli_exit_code_counterexample :
    selectKeyQuery false 100 [kEmptySecret] = some kEmptySecret ∧
    selWhere false 100 kEmptySecret = true ∧
    mainExitCode envEmptySecret = 2 := by
  decide

/-- C8 as amended: the four exit codes are mutually distinct and map as
follows — 4 for a connect failure or any other storage error, 3 for a
missing `api_keys` table or missing secret column, 2 when the connection and
schema are healthy and the query yields no row or a row with an empty
(falsy) secret, and 0 exactly when it yields a row with a nonempty secret. -/
theorem cli_exit_codes (env : CliEnv) :
    (mainExitCode env = 4 ↔ (env.connect_ok = false ∨
      (env.connect_ok = true ∧ env.secret_col_ok = true ∧ env.table_exists = true ∧
        env.db_error = true))) ∧
    (mainExitCode env = 3 ↔ (env.connect_ok = true ∧
      (env.secret_col_ok = false ∨ env.table_exists = false))) ∧
    (mainExitCode env = 2 ↔ (env.connect_ok = true ∧ env.secret_col_ok = true ∧
      env.table_exists = true ∧ env.db_error = false ∧
      (selectKeyQuery env.allow_exhausted env.now env.keys = none ∨
        (∃ k, selectKeyQuery env.allow_exhausted env.now env.keys = some k ∧
          k.key_value = "")))) ∧
    (mainExitCode env = 0 ↔ (env.connect_ok = true ∧ env.secret_col_ok = true ∧
      env.table_exists = true ∧ env.db_error = false ∧
      (∃ k, selectKeyQuery env.allow_exhausted env.now env.keys = some k ∧
        k.key_value ≠ ""))) := by
  rcases env with ⟨co, te, sc, de, now, ax, ks⟩
  cases co <;> cases te <;> cases sc <;> cases de <;>
    simp only [mainExitCode, Bool.not_true, Bool.not_false, if_true, if_false,
      Bool.true_eq_false, Bool.false_eq_true] <;>
    first
      | (simp; done)
      | (cases h : selectKeyQuery ax now ks with
          | none => simp [h]
          | some k =>
            by_cases hv : k.key_value = "" <;> simp [h, hv])

/-- Witness for C8: in `envHealthy` the selector exits 0, by the amended
exit-code characterisation. -/
theorem cli_exit_codes_witness :
    mainExitCode envHealthy = 0 :=
  ((cli_exit_codes envHealthy).2.2.2).mpr
    ⟨rfl, rfl, rfl, rfl, kUnderCount, by decide, by decide⟩

/-- C4 counterexample: both rows pass every filter, `kNewLight` is strictly
smaller in the claimed (count, tokens, last_used) order, yet the agent-loop
store fall-through returns `kOldHeavy` — that path orders by `last_used`
alone. -/
theorem fallthrough_order_counterexample :
    gaAvailable 100 kNewLight = true ∧
    selOrderLE kNewLight kOldHeavy = true ∧
    selOrderLE kOldHeavy kNewLight = false ∧
    (getAvailableKey 100 ⟨[kOldHeavy, kNewLight], []⟩).1 = some (entryOf kOldHeavy) := by
  decide

/-- C4 as amended: (1) the CLI selector's result is minimal under ascending
`daily_request_count`, then `daily_token_total`, then `last_used` with nulls
first, and the A/B/C sequence C, B, A holds for sequential CLI claims that
soft-reserve the chosen key; (2) the agent-loop store fall-through instead
returns the head of the result ordered by `last_used` (nulls first) alone,
so its result is minimal merely under `last_used`. -/
theorem selection_priority_order :
    (∀ (pool : List Key) (now : Int) (allow : Bool) (k : Key),
      selectKeyQuery allow now pool = some k →
      ∀ x ∈ pool, selWhere allow now x = true → selOrderLE k x = true) ∧
    (∀ (now : Int) (db : List Key),
      (getAvailableKey now ⟨db, []⟩).1 = ((gaQueryList now db).head?).map entryOf ∧
      (∀ k, (gaQueryList now db).head? = some k →
        ∀ x ∈ db, gaAvailable now x = true → gaOrderLE k x = true)) ∧
    ((selectKeyReserve 100 600 [kA, kB, kC]).1 = some kC ∧
      (selectKeyReserve 100 600 (selectKeyReserve 100 600 [kA, kB, kC]).2).1 =
        some kB ∧
      (selectKeyReserve 100 600
        (selectKeyReserve 100 600
          (selectKeyReserve 100 600 [kA, kB, kC]).2).2).1 = some kA) := by
  refine ⟨?_, ?_, by decide⟩
  · intro pool now allow k hsel x hx hav
    exact selectLocked_min hsel x hx (by simp [selAvailUnlocked, hav])
  · intro now db
    constructor
    · show (getAvailableKey now ⟨db, []⟩).1 = _
      unfold getAvailableKey
      cases hq : gaQueryList now db with
      | nil => simp [hq]
      | cons k rest => simp [hq]
    · intro k hk x hx hav
      have hpw := sortBy_pairwise gaOrderLE gaOrderLE_total
        (fun h1 h2 => gaOrderLE_trans h1 h2) (db.filter (gaAvailable now))
      have hmin := head_min_of_pairwise gaOrderLE _ k hk hpw (gaOrderLE_refl k)
      exact hmin x ((mem_sortBy _ _ _).mpr (List.mem_filter.mpr ⟨hx, hav⟩))

/-- Witness for C4: the first CLI claim over {A, B, C} returns C, and C is
below B in the selection order. -/
theorem selection_priority_order_witness :
    selOrderLE kC kB = true :=
  selection_priority_order.1 [kA, kB, kC] 100 false kC (by decide) kB
    (by decide) (by decide)

/-- A row-map that preserves `key_name` commutes with lookup by name. -/
theorem find?_map_name_preserving (db : List Key) (name : String) (g : Key → Key)
    (hg : ∀ k, (g k).key_name = k.key_name) :
    (db.map g).find? (fun k => k.key_name == name) =
      (db.find? (fun k => k.key_name == name)).map g := by
  induction db with
  | nil => rfl
  | cons x xs ih =>
    simp only [List.map_cons]
    by_cases hx : x.key_name = name
    · have h1 : ((g x).key_name == name) = true := by simp [hg, hx]
      have h2 : (x.key_name == name) = true := by simp [hx]
      rw [List.find?_cons_of_pos (p := fun k : Key => k.key_name == name) _ h1,
        List.find?_cons_of_pos (p := fun k : Key => k.key_name == name) _ h2]
      rfl
    · have h1 : ¬(((g x).key_name == name) = true) := by simp [hg, hx]
      have h2 : ¬((x.key_name == name) = true) := by simp [hx]
      rw [List.find?_cons_of_neg (p := fun k : Key => k.key_name == name) _ h1,
        List.find?_cons_of_neg (p := fun k : Key => k.key_name == name) _ h2, ih]

theorem check_db_and_log_eq (name : String) (th : Nat) (s : TrackState) :
    (check_and_notify_quota_usage name th s).2.db = s.db ∧
    (check_and_notify_quota_usage name th s).2.usage_log = s.usage_log := by
  unfold check_and_notify_quota_usage
  cases s.db.find? (fun k => k.key_name == name) with
  | none => exact ⟨rfl, rfl⟩
  | some k =>
    by_cases h1 : k.daily_request_count = th
    · simp [h1]
    · by_cases h2 : DAILY_QUOTA_LIMIT ≤ k.daily_request_count
      · simp [h1, h2]
      · simp [h1, h2]

theorem check_notices_and_cache (name : String) (th : Nat) (s : TrackState) (k : Key)
    (hk : s.db.find? (fun x => x.key_name == name) = some k) :
    (check_and_notify_quota_usage name th s).1 =
      (if k.daily_request_count = th then
        [QuotaNotice.nearQuota name k.daily_request_count]
       else if DAILY_QUOTA_LIMIT ≤ k.daily_request_count then
        [QuotaNotice.exhausted name k.daily_request_count]
       else []) ∧
    (check_and_notify_quota_usage name th s).2.cache =
      (if k.daily_request_count ≠ th ∧ DAILY_QUOTA_LIMIT ≤ k.daily_request_count then
        ([] : List CacheEntry)
       else s.cache) := by
  unfold check_and_notify_quota_usage
  rw [hk]
  by_cases h1 : k.daily_request_count = th
  · simp [h1]
  · by_cases h2 : DAILY_QUOTA_LIMIT ≤ k.daily_request_count
    · simp [h1, h2]
    · simp [h1, h2]

theorem update_find? (now : Int) (name task : String) (tok : Nat) (rtype : String)
    (s : TrackState) (k : Key)
    (hk : s.db.find? (fun x => x.key_name == name) = some k) :
    (update_key_and_log_usage now name task tok rtype s).db.find?
        (fun x => x.key_name == name) = some (recordUpd now tok k) := by
  have hname : k.key_name = name := by
    have := List.find?_some hk
    simpa using this
  have hdb : (update_key_and_log_usage now name task tok rtype s).db =
      s.db.map (fun x => if x.key_name = name then recordUpd now tok x else x) := rfl
  rw [hdb,
    find?_map_name_preserving s.db name _
      (fun x => by by_cases h : x.key_name = name <;> simp [recordUpd, h]),
    hk]
  simp [if_pos hname]

/-- C2 counterexample: a Record pushes the count from 59 to 60 and the
post-Record check runs; the check notifies and clears the cache, but the
key's `quota_exhausted` is still `some false` — it is never set to true.
(The flag is only written by the separate `track_api_usage.py` script,
against a 960 limit.) -/
theorem record_quota_flag_counterexample :
    ((recordAndCheck 100 "k13" "t" 5 "chat" sFiftyNine).1.db.find?
        (fun k => k.key_name == "k13")).map Key.quota_exhausted =
      some (some false) ∧
    (recordAndCheck 100 "k13" "t" 5 "chat" sFiftyNine).2 =
      [QuotaNotice.exhausted "k13" 60] ∧
    (recordAndCheck 100 "k13" "t" 5 "chat" sFiftyNine).1.cache = [] := by
  decide

/-- C2 as amended: when a Record pushes the named key's count to the limit
60 or beyond, the post-Record check emits one exhaustion notification and
clears the KeyCache, but leaves `quota_exhausted` exactly as it was; the
key is nonetheless excluded from every subsequent agent-loop store scan —
even with `disabled_until` null — by that query's
`daily_request_count < 60` filter. -/
theorem record_quota_limit_behavior (now : Int) (name task : String) (tok : Nat)
    (rtype : String) (s : TrackState) (k : Key)
    (hk : s.db.find? (fun x => x.key_name == name) = some k)
    (h60 : DAILY_QUOTA_LIMIT ≤ k.daily_request_count + 1) :
    (recordAndCheck now name task tok rtype s).2 =
      [QuotaNotice.exhausted name (k.daily_request_count + 1)] ∧
    (recordAndCheck now name task tok rtype s).1.cache = [] ∧
    ((recordAndCheck now name task tok rtype s).1.db.find?
        (fun x => x.key_name == name)).map Key.quota_exhausted =
      some k.quota_exhausted ∧
    (∀ k', (recordAndCheck now name task tok rtype s).1.db.find?
        (fun x => x.key_name == name) = some k' →
      ∀ (t : Int) (db2 : List Key), k' ∉ gaQueryList t db2) := by
  have h60' : 60 ≤ k.daily_request_count + 1 := h60
  have hfind := update_find? now name task tok rtype s k hk
  have hne : ¬(recordUpd now tok k).daily_request_count = NEAR_QUOTA_THRESHOLD := by
    simp only [recordUpd, NEAR_QUOTA_THRESHOLD]
    omega
  have hge : DAILY_QUOTA_LIMIT ≤ (recordUpd now tok k).daily_request_count := by
    simp only [recordUpd]
    exact h60
  have hcheck := check_notices_and_cache name NEAR_QUOTA_THRESHOLD
    (update_key_and_log_usage now name task tok rtype s) (recordUpd now tok k) hfind
  have hdblog := check_db_and_log_eq name NEAR_QUOTA_THRESHOLD
    (update_key_and_log_usage now name task tok rtype s)
  have hrac1 : (recordAndCheck now name task tok rtype s).1 =
      (check_and_notify_quota_usage name NEAR_QUOTA_THRESHOLD
        (update_key_and_log_usage now name task tok rtype s)).2 := rfl
  have hrac2 : (recordAndCheck now name task tok rtype s).2 =
      (check_and_notify_quota_usage name NEAR_QUOTA_THRESHOLD
        (update_key_and_log_usage now name task tok rtype s)).1 := rfl
  refine ⟨?_, ?_, ?_, ?_⟩
  · rw [hrac2, hcheck.1, if_neg hne, if_pos hge]
    rfl
  · rw [hrac1, hcheck.2, if_pos ⟨hne, hge⟩]
  · rw [hrac1, hdblog.1, hfind]
    rfl
  · intro k' hk' t db2 hmem
    rw [hrac1, hdblog.1, hfind] at hk'
    have hk'' : k' = recordUpd now tok k := by
      exact (Option.some.injEq _ _).mp hk'.symm
    have hav := ((mem_gaQueryList t db2 k').mp hmem).2
    rw [hk''] at hav
    simp only [gaAvailable, recordUpd, Bool.and_eq_true, decide_eq_true_eq] at hav
    omega

/-- Witness for C2 at the 59→60 crossing of `sFiftyNine`. -/
theorem record_quota_limit_behavior_witness :
    (recordAndCheck 100 "k13" "t2" 5 "chat" sFiftyNine).1.cache = [] :=
  (record_quota_limit_behavior 100 "k13" "t2" 5 "chat" sFiftyNine kFiftyNine
    (by decide) (by decide)).2.1

/-- A single accounting step seen through the tracked key: the count
increments by one, and the emitted notices are exactly `check`'s cases at
the new count. -/
theorem recordAndCheck_state (now : Int) (name task : String) (tok : Nat)
    (rtype : String) (s : TrackState) (k : Key)
    (hk : s.db.find? (fun x => x.key_name == name) = some k) :
    (recordAndCheck now name task tok rtype s).1.db.find?
        (fun x => x.key_name == name) = some (recordUpd now tok k) ∧
    (recordAndCheck now name task tok rtype s).2 =
      (if k.daily_request_count + 1 = NEAR_QUOTA_THRESHOLD then
        [QuotaNotice.nearQuota name (k.daily_request_count + 1)]
       else if DAILY_QUOTA_LIMIT ≤ k.daily_request_count + 1 then
        [QuotaNotice.exhausted name (k.daily_request_count + 1)]
       else []) := by
  have hfind := update_find? now name task tok rtype s k hk
  have hcheck := check_notices_and_cache name NEAR_QUOTA_THRESHOLD
    (update_key_and_log_usage now name task tok rtype s) (recordUpd now tok k) hfind
  have hdblog := check_db_and_log_eq name NEAR_QUOTA_THRESHOLD
    (update_key_and_log_usage now name task tok rtype s)
  constructor
  · show (check_and_notify_quota_usage name NEAR_QUOTA_THRESHOLD
      (update_key_and_log_usage now name task tok rtype s)).2.db.find?
        (fun x => x.key_name == name) = _
    rw [hdblog.1, hfind]
  · show (check_and_notify_quota_usage name NEAR_QUOTA_THRESHOLD
      (update_key_and_log_usage now name task tok rtype s)).1 = _
    rw [hcheck.1]
    rfl

/-- C6: across any run of Record-and-check steps against one key, the
near-quota warning fires at most once; it fires exactly when the run
carries the key's `daily_request_count` across the 55-request warning
threshold, and every warning emitted names that key at exactly the
threshold count — later calls that keep the count above the threshold
never re-emit it. -/
theorem near_quota_warning_once (now : Int) (name task : String) (tok : Nat)
    (rtype : String) (n : Nat) (s : TrackState) (c0 : Nat)
    (hc : countOf s.db name = some c0) :
    (recordRun now name task tok rtype n s).2.countP isNearNotice ≤ 1 ∧
    ((recordRun now name task tok rtype n s).2.countP isNearNotice = 1 ↔
      (c0 < NEAR_QUOTA_THRESHOLD ∧ NEAR_QUOTA_THRESHOLD ≤ c0 + n)) ∧
    (∀ m c, QuotaNotice.nearQuota m c ∈ (recordRun now name task tok rtype n s).2 →
      m = name ∧ c = NEAR_QUOTA_THRESHOLD) := by
  induction n generalizing s c0 with
  | zero =>
    refine ⟨by simp [recordRun], ?_, ?_⟩
    · simp only [recordRun, List.countP_nil]
      constructor
      · intro h
        omega
      · rintro ⟨h1, h2⟩
        omega
    · intro m c hmem
      simp [recordRun] at hmem
  | succ n ih =>
    rcases hfind : s.db.find? (fun x => x.key_name == name) with _ | k
    · rw [countOf, hfind] at hc
      simp at hc
    · have hc0 : k.daily_request_count = c0 := by
        rw [countOf, hfind] at hc
        simpa using hc
      have hstep := recordAndCheck_state now name task tok rtype s k hfind
      have hc1 : countOf (recordAndCheck now name task tok rtype s).1.db name =
          some (c0 + 1) := by
        rw [countOf, hstep.1]
        simp [recordUpd, hc0]
      have hsucc : (recordRun now name task tok rtype (n + 1) s).2 =
          (recordAndCheck now name task tok rtype s).2 ++
            (recordRun now name task tok rtype n
              (recordAndCheck now name task tok rtype s).1).2 := rfl
      have ha : (recordAndCheck now name task tok rtype s).2.countP isNearNotice =
          if c0 + 1 = NEAR_QUOTA_THRESHOLD then 1 else 0 := by
        rw [hstep.2, hc0]
        by_cases h : c0 + 1 = NEAR_QUOTA_THRESHOLD
        · simp [h, isNearNotice]
        · by_cases h2 : DAILY_QUOTA_LIMIT ≤ c0 + 1 <;> simp [h, h2, isNearNotice]
      obtain ⟨hb1, hb2, hb3⟩ := ih (recordAndCheck now name task tok rtype s).1 (c0 + 1) hc1
      refine ⟨?_, ?_, ?_⟩
      · rw [hsucc, List.countP_append, ha]
        by_cases h : c0 + 1 = NEAR_QUOTA_THRESHOLD
        · rw [if_pos h]
          have hrhs : ¬(c0 + 1 < NEAR_QUOTA_THRESHOLD ∧
              NEAR_QUOTA_THRESHOLD ≤ c0 + 1 + n) := by omega
          have hbne : (recordRun now name task tok rtype n
              (recordAndCheck now name task tok rtype s).1).2.countP isNearNotice ≠ 1 :=
            fun hb => hrhs (hb2.mp hb)
          omega
        · rw [if_neg h]
          omega
      · rw [hsucc, List.countP_append, ha]
        by_cases h : c0 + 1 = NEAR_QUOTA_THRESHOLD
        · rw [if_pos h]
          have hrhs : ¬(c0 + 1 < NEAR_QUOTA_THRESHOLD ∧
              NEAR_QUOTA_THRESHOLD ≤ c0 + 1 + n) := by omega
          have hbne : (recordRun now name task tok rtype n
              (recordAndCheck now name task tok rtype s).1).2.countP isNearNotice ≠ 1 :=
            fun hb => hrhs (hb2.mp hb)
          constructor
          · intro _
            omega
          · intro _
            omega
        · rw [if_neg h]
          constructor
          · intro hone
            have := hb2.mp (by omega)
            omega
          · rintro ⟨h1, h2⟩
            have : (recordRun now name task tok rtype n
                (recordAndCheck now name task tok rtype s).1).2.countP isNearNotice = 1 :=
              hb2.mpr (by omega)
            omega
      · intro m c hmem
        rw [hsucc, List.mem_append] at hmem
        rcases hmem with hmem | hmem
        · rw [hstep.2, hc0] at hmem
          by_cases h : c0 + 1 = NEAR_QUOTA_THRESHOLD
          · rw [if_pos h] at hmem
            simp only [List.mem_singleton, QuotaNotice.nearQuota.injEq] at hmem
            exact ⟨hmem.1, hmem.2.trans h⟩
          · rw [if_neg h] at hmem
            by_cases h2 : DAILY_QUOTA_LIMIT ≤ c0 + 1
            · rw [if_pos h2] at hmem
              simp at hmem
            · rw [if_neg h2] at hmem
              simp at hmem
        · exact hb3 m c hmem

/-- Witness for C6: four Record calls carry the count 53 → 57 across the
threshold and emit exactly one near-quota warning. -/
theorem near_quota_warning_once_witness :
    (recordRun 100 "k14" "t" 1 "chat" 4 sFiftyThree).2.countP isNearNotice = 1 :=
  (near_quota_warning_once 100 "k14" "t" 1 "chat" 4 sFiftyThree 53
    (by decide)).2.1.mpr (by decide)

theorem getAvailableKey_db (t : Int) (s : AgentState) :
    (getAvailableKey t s).2.db = s.db := by
  unfold getAvailableKey
  cases h : s.cache with
  | cons e rest => rfl
  | nil =>
    cases hq : gaQueryList t s.db with
    | nil => rfl
    | cons k rest => rfl

theorem getAvailableKey_avoids (t : Int) (s : AgentState) (bad : Nat)
    (hdb : ∀ r ∈ s.db, r.id = bad → gaAvailable t r = false)
    (hcache : ∀ e ∈ s.cache, e.id ≠ bad) :
    (∀ e, (getAvailableKey t s).1 = some e → e.id ≠ bad) ∧
    (∀ e ∈ (getAvailableKey t s).2.cache, e.id ≠ bad) := by
  unfold getAvailableKey
  cases h : s.cache with
  | cons e rest =>
    refine ⟨?_, ?_⟩
    · intro e' he'
      simp only [Option.some.injEq] at he'
      exact he' ▸ hcache e (h ▸ List.mem_cons_self e rest)
    · intro e' he'
      exact hcache e' (h ▸ List.mem_cons_of_mem e he')
  | nil =>
    cases hq : gaQueryList t s.db with
    | nil =>
      refine ⟨?_, ?_⟩
      · intro e he
        simp at he
      · intro e he
        rw [h] at he
        simp at he
    | cons k rest =>
      have hrow : ∀ r ∈ gaQueryList t s.db, r.id ≠ bad := by
        intro r hr hbad
        rcases (mem_gaQueryList t s.db r).mp hr with ⟨hmem, hav⟩
        rw [hdb r hmem hbad] at hav
        exact Bool.false_ne_true hav
      refine ⟨?_, ?_⟩
      · intro e he
        simp only [Option.some.injEq] at he
        rcases he with rfl
        exact hrow k (by rw [hq]; exact List.mem_cons_self k rest)
      · intro e he
        simp only [List.mem_map] at he
        rcases he with ⟨r, hr, rfl⟩
        exact hrow r (by rw [hq]; exact List.mem_cons_of_mem k hr)

theorem acquireTrace_avoids (times : List Int) (s : AgentState) (bad : Nat)
    (hdb : ∀ t ∈ times, ∀ r ∈ s.db, r.id = bad → gaAvailable t r = false)
    (hcache : ∀ e ∈ s.cache, e.id ≠ bad) :
    ∀ o ∈ (acquireTrace times s).1, ∀ e, o = some e → e.id ≠ bad := by
  induction times generalizing s with
  | nil =>
    intro o ho
    simp [acquireTrace] at ho
  | cons t ts ih =>
    have hstep := getAvailableKey_avoids t s bad
      (hdb t (List.mem_cons_self t ts)) hcache
    have hnextdb : (getAvailableKey t s).2.db = s.db := getAvailableKey_db t s
    intro o ho e hoe
    have hsucc : (acquireTrace (t :: ts) s).1 =
        (getAvailableKey t s).1 :: (acquireTrace ts (getAvailableKey t s).2).1 := rfl
    rw [hsucc, List.mem_cons] at ho
    rcases ho with rfl | ho'
    · exact hstep.1 e hoe
    · exact ih (getAvailableKey t s).2
        (fun u hu r hr => hdb u (List.mem_cons_of_mem t hu) r (hnextdb ▸ hr))
        hstep.2 o ho' e hoe

/-- C3: the Disable operation sets the named key's `disabled_until` to
`now + d` and clears the KeyCache in the same operation, so that — whatever
was in the cache beforehand — no subsequent Acquire, through the cache hit
or the store fall-through, returns that key's entry at any instant up to
the end of the cooldown. -/
theorem disable_clears_cache_and_blocks_key (s : AgentState) (k : Key)
    (now d : Int) (times : List Int)
    (hk : k ∈ s.db) (hnd : (s.db.map Key.id).Nodup)
    (ht : ∀ t ∈ times, t ≤ now + d) :
    (disableKey now d k.key_name s).cache = [] ∧
    (∃ k', k' ∈ (disableKey now d k.key_name s).db ∧ k'.id = k.id ∧
      k'.key_name = k.key_name ∧ k'.disabled_until = some (now + d)) ∧
    (∀ o ∈ (acquireTrace times (disableKey now d k.key_name s)).1,
      ∀ e, o = some e → e.id ≠ k.id) := by
  refine ⟨rfl, ?_, ?_⟩
  · refine ⟨{ k with disabled_until := some (now + d) }, ?_, rfl, rfl, rfl⟩
    have hmap : (disableKey now d k.key_name s).db = s.db.map (fun x =>
        if x.key_name = k.key_name then
          { x with disabled_until := some (now + d) } else x) := rfl
    rw [hmap]
    exact List.mem_map.mpr ⟨k, hk, by rw [if_pos rfl]⟩
  · apply acquireTrace_avoids
    · intro t htm r hr hbad
      simp only [disableKey, List.mem_map] at hr
      rcases hr with ⟨r0, hr0, rfl⟩
      have hid : r0.id = k.id := by
        by_cases hcond : r0.key_name = k.key_name
        · rw [if_pos hcond] at hbad
          exact hbad
        · rw [if_neg hcond] at hbad
          exact hbad
      have hr0k : r0 = k := List.inj_on_of_nodup_map hnd hr0 hk hid
      subst hr0k
      rw [if_pos rfl]
      have hle := ht t htm
      simp only [gaAvailable, enabledAt]
      rw [decide_eq_false (by omega)]
      simp
    · intro e he
      simp [disableKey] at he

/-- Witness for C3: disabling `k15` for 300 s at time 100 empties the
cache. -/
theorem disable_clears_cache_and_blocks_key_witness :
    (disableKey 100 300 "k15" sDisable).cache = [] :=
  (disable_clears_cache_and_blocks_key sDisable kDisable 100 300 [150, 350, 400]
    (by decide) (by decide) (by decide)).1

theorem nodup_names_filter (pool : List Key) (p : Key → Bool)
    (h : (pool.map Key.key_name).Nodup) :
    ((pool.filter p).map Key.key_name).Nodup := by
  have hs : List.Sublist ((pool.filter p).map Key.key_name)
      (pool.map Key.key_name) :=
    (List.filter_sublist pool).map Key.key_name
  exact h.sublist hs

theorem length_filter_ne_name (l : List Key) (nm : String)
    (hnd : (l.map Key.key_name).Nodup) (hmem : ∃ x ∈ l, x.key_name = nm) :
    (l.filter (fun x => !(x.key_name == nm))).length + 1 = l.length := by
  induction l with
  | nil => simp at hmem
  | cons y ys ih =>
    simp only [List.map_cons, List.nodup_cons] at hnd
    by_cases hy : y.key_name = nm
    · have hys : ys.filter (fun x => !(x.key_name == nm)) = ys := by
        apply List.filter_eq_self.mpr
        intro x hx
        have hne : x.key_name ≠ nm := by
          intro hxe
          have hmm : x.key_name ∈ ys.map Key.key_name :=
            List.mem_map_of_mem Key.key_name hx
          rw [hxe, ← hy] at hmm
          exact hnd.1 hmm
        simp [hne]
      rw [List.filter_cons]
      have hcond : (!(y.key_name == nm)) = false := by simp [hy]
      rw [if_neg (by simp [hcond]), hys]
      simp
    · rcases hmem with ⟨x, hx, hxn⟩
      rcases List.mem_cons.mp hx with rfl | hx'
      · exact absurd hxn hy
      · rw [List.filter_cons]
        have hcond : (!(y.key_name == nm)) = true := by simp [hy]
        rw [if_pos hcond]
        simp only [List.length_cons]
        rw [← ih hnd.2 ⟨x, hx', hxn⟩]

theorem filter_avail_cons_locked (pool : List Key) (allow : Bool) (now : Int)
    (locked : List String) (nm : String) :
    pool.filter (selAvailUnlocked allow now (nm :: locked)) =
      (pool.filter (selAvailUnlocked allow now locked)).filter
        (fun x => !(x.key_name == nm)) := by
  rw [List.filter_filter]
  apply List.filter_congr
  intro x _
  by_cases h : x.key_name = nm
  · simp [selAvailUnlocked, h]
  · simp [selAvailUnlocked, h]

theorem selAvailUnlocked_cons {allow : Bool} {now : Int} {nm : String}
    {locked : List String} {x : Key}
    (h : selAvailUnlocked allow now (nm :: locked) x = true) :
    selAvailUnlocked allow now locked x = true ∧ x.key_name ≠ nm := by
  simp only [selAvailUnlocked, Bool.and_eq_true] at h ⊢
  rcases h with ⟨h1, h2⟩
  have h2' : ¬(x.key_name ∈ nm :: locked) := by simpa using h2
  rw [List.mem_cons, not_or] at h2'
  exact ⟨⟨h1, by simpa using h2'.2⟩, h2'.1⟩

theorem avail_count_after_claim (pool : List Key) (allow : Bool) (now : Int)
    (locked : List String) (k : Key)
    (hnd : (pool.map Key.key_name).Nodup)
    (hsel : selectLocked allow now locked pool = some k) :
    (pool.filter (selAvailUnlocked allow now (k.key_name :: locked))).length + 1 =
      (pool.filter (selAvailUnlocked allow now locked)).length := by
  rcases selectLocked_mem hsel with ⟨hmem, hav⟩
  rw [filter_avail_cons_locked]
  apply length_filter_ne_name
  · exact nodup_names_filter pool _ hnd
  · exact ⟨k, List.mem_filter.mpr ⟨hmem, hav⟩, rfl⟩

theorem filterMap_id_cons_none (l : List (Option Key)) :
    (none :: l).filterMap id = l.filterMap id := rfl

theorem filterMap_id_cons_some (k : Key) (l : List (Option Key)) :
    ((some k) :: l).filterMap id = k :: l.filterMap id := rfl

theorem claimRound_aux (allow : Bool) (now : Int) (pool : List Key)
    (hnd : (pool.map Key.key_name).Nodup) :
    ∀ (n : Nat) (locked : List String),
      (claimRound allow now pool n locked).length = n ∧
      ((claimRound allow now pool n locked).filterMap id).length =
        min n (pool.filter (selAvailUnlocked allow now locked)).length ∧
      (∀ k, some k ∈ claimRound allow now pool n locked →
        k ∈ pool ∧ selAvailUnlocked allow now locked k = true) ∧
      (((claimRound allow now pool n locked).filterMap id).map Key.key_name).Nodup := by
  intro n
  induction n with
  | zero =>
    intro locked
    exact ⟨rfl, by simp [claimRound], by simp [claimRound], by simp [claimRound]⟩
  | succ n ih =>
    intro locked
    cases hsel : selectLocked allow now locked pool with
    | none =>
      have hempty : pool.filter (selAvailUnlocked allow now locked) = [] :=
        (selectLocked_eq_none_iff allow now locked pool).mp hsel
      have heq : claimRound allow now pool (n + 1) locked =
          none :: claimRound allow now pool n locked := by
        simp only [claimRound, hsel]
      obtain ⟨ih1, ih2, ih3, ih4⟩ := ih locked
      refine ⟨?_, ?_, ?_, ?_⟩
      · rw [heq]
        simp [ih1]
      · rw [heq, filterMap_id_cons_none, ih2, hempty]
        simp
      · intro k hk
        rw [heq, List.mem_cons] at hk
        rcases hk with hk | hk
        · exact absurd hk (by simp)
        · exact ih3 k hk
      · rw [heq]
        simpa using ih4
    | some k =>
      have hkm := selectLocked_mem hsel
      have hcount := avail_count_after_claim pool allow now locked k hnd hsel
      have heq : claimRound allow now pool (n + 1) locked =
          some k :: claimRound allow now pool n (k.key_name :: locked) := by
        simp only [claimRound, hsel]
      obtain ⟨ih1, ih2, ih3, ih4⟩ := ih (k.key_name :: locked)
      refine ⟨?_, ?_, ?_, ?_⟩
      · rw [heq]
        simp [ih1]
      · rw [heq, filterMap_id_cons_some]
        simp only [List.length_cons]
        rw [ih2]
        omega
      · intro k' hk'
        rw [heq, List.mem_cons] at hk'
        rcases hk' with hk' | hk'
        · have : k' = k := by simpa using hk'
          rw [this]
          exact ⟨hkm.1, hkm.2⟩
        · have := ih3 k' hk'
          exact ⟨this.1, (selAvailUnlocked_cons this.2).1⟩
      · rw [heq, filterMap_id_cons_some]
        simp only [List.map_cons, List.nodup_cons]
        refine ⟨?_, ih4⟩
        intro hmemname
        simp only [List.mem_map] at hmemname
        rcases hmemname with ⟨k', hk', hname⟩
        have hk'' := ih3 k' (by
          simp only [List.mem_filterMap, id] at hk'
          rcases hk' with ⟨o, ho, hoe⟩
          cases o with
          | none => simp at hoe
          | some v =>
            simp only [Option.some.injEq] at hoe
            exact hoe ▸ ho)
        exact (selAvailUnlocked_cons hk''.2).2 hname

/-- C1: `n` concurrent Acquire calls in one claim round, modelled by the
`FOR UPDATE SKIP LOCKED` pattern as a growing set of row locks: every
caller gets an immediate answer, every delivered key is a distinct
available pool row (no key is delivered twice within the round), and with
`M` available rows exactly `min n M` callers receive a key — when `M < n`
the remaining `n − M` callers receive Empty rather than blocking. -/
theorem concurrent_acquire_mutual_exclusion (allow : Bool) (now : Int)
    (pool : List Key) (n : Nat) (hnd : (pool.map Key.key_name).Nodup) :
    (claimRound allow now pool n []).length = n ∧
    ((claimRound allow now pool n []).filterMap id).length =
      min n (pool.filter (selWhere allow now)).length ∧
    (∀ k, some k ∈ claimRound allow now pool n [] →
      k ∈ pool ∧ selWhere allow now k = true) ∧
    (((claimRound allow now pool n []).filterMap id).map Key.key_name).Nodup := by
  obtain ⟨h1, h2, h3, h4⟩ := claimRound_aux allow now pool hnd n []
  have hfe : pool.filter (selAvailUnlocked allow now []) =
      pool.filter (selWhere allow now) := by
    apply List.filter_congr
    intro x _
    simp [selAvailUnlocked]
  refine ⟨h1, ?_, ?_, h4⟩
  · rw [h2, hfe]
  · intro k hk
    have := h3 k hk
    exact ⟨this.1, by simpa [selAvailUnlocked] using this.2⟩

/-- Witness for C1: three concurrent claims against two available keys hand
out two distinct keys and one Empty. -/
theorem concurrent_acquire_mutual_exclusion_witness :
    (claimRound false 100 [kW1, kW2, kW3] 3 []).length = 3 ∧
    ((claimRound false 100 [kW1, kW2, kW3] 3 []).filterMap id).length =
      min 3 ([kW1, kW2, kW3].filter (selWhere false 100)).length ∧
    (∀ k, some k ∈ claimRound false 100 [kW1, kW2, kW3] 3 [] →
      k ∈ [kW1, kW2, kW3] ∧ selWhere false 100 k = true) ∧
    (((claimRound false 100 [kW1, kW2, kW3] 3 []).filterMap id).map
      Key.key_name).Nodup :=
  concurrent_acquire_mutual_exclusion false 100 [kW1, kW2, kW3] 3 (by decide)

end Gembot
